import Mathlib

/-!
Shallow embedding of the `ant-farmer` SQL `CREATE TABLE` pretty-printer
(`src/lib.rs`) together with proofs about its layout engine.

Modelling conventions:
* The external `sqlparser` AST is modelled by the inductive types below,
  restricted to the fields the formatter reads.  The `Display` renderings of
  opaque subterms (identifiers, data types, expressions, referential
  actions) are carried as strings.
* Rust panics (`todo!()` on a non-`CREATE TABLE` statement,
  `Option::unwrap()` on a `None` constraint name) are modelled as
  `Except.error (AntError.panicked msg)` carrying the runtime panic
  message; an `Err(ParserError)` result from the external parser is
  `Except.error (AntError.parseFailure e)`.
* String lengths are character counts; the Rust source measures bytes.
  The two coincide on single-byte (ASCII) text, which covers all literal
  text the formatter itself introduces.
* Direct `Vec` indexing `row[i]` in the source is modelled by `nthSeg`,
  which yields `""` out of range; every row produced by the extractors has
  the full arity (4 for columns, 8 for constraints), where both agree.
-/

/-- Model of `sqlparser::parser::ParserError`, the error type propagated
unchanged by the orchestrator. -/
inductive ParserError where
  | tokenizerError (msg : String)
  | parserFailure (msg : String)
  | recursionLimitExceeded
deriving DecidableEq, Repr

/-- Error universe of the embedded formatter: either a propagated
`ParserError` or a Rust panic with its message. -/
inductive AntError where
  | parseFailure (e : ParserError)
  | panicked (msg : String)
deriving DecidableEq, Repr

/-- A single `sqlparser::ast::ColumnOption`, restricted to the variants the
formatter inspects; every other variant is collapsed into `OtherOption`
carrying its `Display` rendering. -/
inductive ColumnOption where
  | Null
  | NotNull
  | Default (expr : String)
  | OtherOption (rendered : String)
deriving DecidableEq, Repr

/-- The `Display` rendering of a column option, as produced by
`option.to_string()` inside `<ColumnDef as AlignedDisplay>::segments`. -/
def ColumnOption.render : ColumnOption → String
  | .Null => "NULL"
  | .NotNull => "NOT NULL"
  | .Default expr => "DEFAULT " ++ expr
  | .OtherOption rendered => rendered

/-- The predicate of the first `find` in `<ColumnDef as
AlignedDisplay>::segments`:
`matches!(option, ColumnOption::Null) || matches!(option, ColumnOption::NotNull)`. -/
def ColumnOption.isNullability : ColumnOption → Bool
  | .Null => true
  | .NotNull => true
  | _ => false

/-- The predicate of the second `find` in `<ColumnDef as
AlignedDisplay>::segments`: `matches!(option, ColumnOption::Default(_))`. -/
def ColumnOption.isDefault : ColumnOption → Bool
  | .Default _ => true
  | _ => false

/-- Model of `sqlparser::ast::ColumnOptionDef`; the formatter only reads the
`option` field. -/
structure ColumnOptionDef where
  name : Option String
  option : ColumnOption
deriving DecidableEq, Repr

/-- Model of `sqlparser::ast::ColumnDef`, restricted to the fields the
formatter reads (`name` and `data_type` via their `Display` renderings). -/
structure ColumnDef where
  name : String
  data_type : String
  options : List ColumnOptionDef
deriving DecidableEq, Repr

/-- Model of `sqlparser::ast::TableConstraint`, the three variants matched by
`<TableConstraint as AlignedDisplay>::segments`. -/
inductive TableConstraint where
  | Unique (name : Option String) (columns : List String) (is_primary : Bool)
  | ForeignKey (name : Option String) (columns : List String) (foreign_table : String)
      (referred_columns : List String) (on_delete : Option String) (on_update : Option String)
  | Check (name : Option String) (expr : String)
deriving DecidableEq, Repr

/-- The `name` field shared by all three constraint variants. -/
def TableConstraint.constraintName : TableConstraint → Option String
  | .Unique name _ _ => name
  | .ForeignKey name _ _ _ _ _ => name
  | .Check name _ => name

/-- Model of `sqlparser::ast::Statement` as the orchestrator matches it: the
`CreateTable` variant with the three fields it reads, and a catch-all for
every other statement kind (which hits the `_ => todo!()` arm). -/
inductive Statement where
  | CreateTable (name : String) (columns : List ColumnDef) (constraints : List TableConstraint)
  | OtherStatement (rendered : String)
deriving DecidableEq, Repr

/-- Whether a statement is the `CreateTable` variant. -/
def Statement.isCreateTable : Statement → Bool
  | .CreateTable _ _ _ => true
  | .OtherStatement _ => false

/-- The Rust panic message of `Option::unwrap()` on `None`. -/
def unwrapPanicMsg : String := "called `Option::unwrap()` on a `None` value"

/-- The Rust panic message of `todo!()`. -/
def todoPanicMsg : String := "not yet implemented"

/-- Model of `name.clone().unwrap()`: yields the name or panics. -/
def unwrapName : Option String → Except AntError String
  | some n => .ok n
  | none => .error (.panicked unwrapPanicMsg)

/-- Embedding of `<TableConstraint as AlignedDisplay>::segments`: an
8-element row per variant.  `columns.iter().map(to_string).join(", ")`
becomes `String.intercalate ", "`. -/
def TableConstraint.segments : TableConstraint → Except AntError (List String)
  | .Unique name columns is_primary => do
      let n ← unwrapName name
      .ok ["CONSTRAINT " ++ n,
           if is_primary then "PRIMARY KEY" else "UNIQUE",
           String.intercalate ", " columns,
           "", "", "", "", ""]
  | .ForeignKey name columns foreign_table referred_columns on_delete on_update => do
      let n ← unwrapName name
      .ok ["CONSTRAINT " ++ n,
           "FOREIGN KEY",
           String.intercalate ", " columns,
           "REFERENCES",
           foreign_table,
           String.intercalate ", " referred_columns,
           (match on_delete with
            | some action => "ON DELETE " ++ action
            | none => ""),
           (match on_update with
            | some action => "ON UPDATE " ++ action
            | none => "")]
  | .Check name expr => do
      let n ← unwrapName name
      .ok ["CONSTRAINT " ++ n,
           "CHECK (" ++ expr ++ ")",
           "", "", "", "", "", ""]

/-- Embedding of `<ColumnDef as AlignedDisplay>::segments`: the two `find`
passes over `options` followed by the 4-element row. -/
def ColumnDef.segments (c : ColumnDef) : List String :=
  let nullable :=
    match (c.options.map (fun o => o.option)).find? (fun o => o.isNullability) with
    | some o => o.render
    | none => ""
  let deflt :=
    match (c.options.map (fun o => o.option)).find? (fun o => o.isDefault) with
    | some o => o.render
    | none => ""
  [c.name, c.data_type, nullable, deflt]

/-- A run of `n` space characters. -/
def spaces (n : Nat) : String := String.mk (List.replicate n ' ')

/-- Rust format specifier `{:<w$}`: pad on the right with spaces to minimum
width `w` (left-justified; no truncation when already wider). -/
def alignLeft (s : String) (w : Nat) : String := s ++ spaces (w - s.length)

/-- Rust format specifier `{:>w$}`: pad on the left with spaces to minimum
width `w` (right-justified). -/
def alignRight (s : String) (w : Nat) : String := spaces (w - s.length) ++ s

/-- Strip leading and trailing whitespace from a character list. -/
def trimChars (cs : List Char) : List Char :=
  ((cs.dropWhile Char.isWhitespace).reverse.dropWhile Char.isWhitespace).reverse

/-- Rust `str::trim`: strip whitespace from both ends. -/
def rustTrim (s : String) : String := String.mk (trimChars s.data)

/-- Segment access `row[i]`, total with default `""` (see module comment). -/
def nthSeg (r : List String) (i : Nat) : String := r.getD i ""

/-- The 4-tuple accumulated by the column-widths fold. -/
structure ColWidths where
  w0 : Nat
  w1 : Nat
  w2 : Nat
  w3 : Nat
deriving DecidableEq, Repr

/-- The 8-tuple accumulated by the constraint-widths fold. -/
structure ConWidths where
  w0 : Nat
  w1 : Nat
  w2 : Nat
  w3 : Nat
  w4 : Nat
  w5 : Nat
  w6 : Nat
  w7 : Nat
deriving DecidableEq, Repr

/-- View of the column widths as a list, for position-indexed statements. -/
def ColWidths.toList (w : ColWidths) : List Nat := [w.w0, w.w1, w.w2, w.w3]

/-- View of the constraint widths as a list, for position-indexed statements. -/
def ConWidths.toList (w : ConWidths) : List Nat :=
  [w.w0, w.w1, w.w2, w.w3, w.w4, w.w5, w.w6, w.w7]

/-- Embedding of the `column_widths` fold in `mierenneuke`: starting from
`(0, 0, 0, 0)`, take the componentwise `max` with each row's segment
lengths. -/
def columnWidths (rows : List (List String)) : ColWidths :=
  rows.foldl (fun acc r =>
    ⟨max acc.w0 (nthSeg r 0).length, max acc.w1 (nthSeg r 1).length,
     max acc.w2 (nthSeg r 2).length, max acc.w3 (nthSeg r 3).length⟩)
    ⟨0, 0, 0, 0⟩

/-- Embedding of the `constraint_widths` fold in `mierenneuke`. -/
def constraintWidths (rows : List (List String)) : ConWidths :=
  rows.foldl (fun acc r =>
    ⟨max acc.w0 (nthSeg r 0).length, max acc.w1 (nthSeg r 1).length,
     max acc.w2 (nthSeg r 2).length, max acc.w3 (nthSeg r 3).length,
     max acc.w4 (nthSeg r 4).length, max acc.w5 (nthSeg r 5).length,
     max acc.w6 (nthSeg r 6).length, max acc.w7 (nthSeg r 7).length⟩)
    ⟨0, 0, 0, 0, 0, 0, 0, 0⟩

/-- Embedding of the column-row format string
`"{:<name_width$} {:<type_width$} {:>null_width$} {:<default_width$}"`. -/
def renderColumnRow (ws : ColWidths) (r : List String) : String :=
  alignLeft (nthSeg r 0) ws.w0 ++ " " ++ alignLeft (nthSeg r 1) ws.w1 ++ " " ++
    alignRight (nthSeg r 2) ws.w2 ++ " " ++ alignLeft (nthSeg r 3) ws.w3

/-- Embedding of the constraint-row rendering: eight left-justified fields
(the local column list always parenthesised, the referred column list
parenthesised only when non-empty, both padded to width `+ 2`), then
`.trim()` on the assembled line. -/
def renderConstraintRow (ws : ConWidths) (r : List String) : String :=
  rustTrim (alignLeft (nthSeg r 0) ws.w0 ++ " " ++
    alignLeft (nthSeg r 1) ws.w1 ++ " " ++
    alignLeft ("(" ++ nthSeg r 2 ++ ")") (ws.w2 + 2) ++ " " ++
    alignLeft (nthSeg r 3) ws.w3 ++ " " ++
    alignLeft (nthSeg r 4) ws.w4 ++ " " ++
    alignLeft (if (nthSeg r 5).length > 0 then "(" ++ nthSeg r 5 ++ ")" else "") (ws.w5 + 2) ++ " " ++
    alignLeft (nthSeg r 6) ws.w6 ++ " " ++
    alignLeft (nthSeg r 7) ws.w7)

/-- The columns block: every column's row rendered against the widths of all
column rows of the statement, joined by `"\n  , "`. -/
def columnsBlock (cols : List ColumnDef) : String :=
  let segs := cols.map ColumnDef.segments
  String.intercalate "\n  , " (segs.map (renderColumnRow (columnWidths segs)))

/-- The constraints block: every extracted constraint row rendered against
the widths of all constraint rows of the statement, joined by `"\n  , "`. -/
def constraintsBlock (segs : List (List String)) : String :=
  String.intercalate "\n  , " (segs.map (renderConstraintRow (constraintWidths segs)))

/-- Processing of one `Statement::CreateTable` arm of `mierenneuke`: extract
constraint rows (possibly panicking on an unnamed constraint), render both
blocks, and assemble the statement's output.  The constraints block is
appended only when the joined constraints string is non-empty
(`constraints.len() > 0` on the shadowed `String`). -/
def processCreateTable (name : String) (cols : List ColumnDef)
    (cons : List TableConstraint) : Except AntError String := do
  let conSegs ← cons.mapM TableConstraint.segments
  let colBlock := columnsBlock cols
  let conBlock := constraintsBlock conSegs
  .ok ("CREATE TABLE " ++ name ++ " (\n" ++ "    " ++ colBlock ++ "\n" ++
    (if conBlock.length > 0 then "  , " ++ conBlock ++ "\n" else "") ++ ")\n;")

/-- One iteration of the statement loop in `mierenneuke`: a `CreateTable`
appends its rendered output, any other statement hits `_ => todo!()`. -/
def mierenneukeStep (output : String) (s : Statement) : Except AntError String :=
  match s with
  | .CreateTable name cols cons =>
      (processCreateTable name cols cons).map (fun piece => output ++ piece)
  | .OtherStatement _ => .error (.panicked todoPanicMsg)

/-- Embedding of `AntFarmer::mierenneuke` after the parse: fold the statement
loop over the AST, starting from the empty output string. -/
def mierenneuke (ast : List Statement) : Except AntError String :=
  ast.foldlM mierenneukeStep ""

/-- Embedding of `AntFarmer::mierenneuke` including the external-parser call
`Parser::parse_sql(&self.dialect, sql)?`, with the parser (dialect included)
abstracted as a function argument. -/
def mierenneukeFull (parse : String → Except AntError (List Statement))
    (sql : String) : Except AntError String := do
  let ast ← parse sql
  mierenneuke ast

/-- Decidable statement of the spec's global precondition that every
constraint of every `CREATE TABLE` statement carries a name. -/
def allConstraintsNamed (ast : List Statement) : Bool :=
  ast.all fun s =>
    match s with
    | .CreateTable _ _ cons => cons.all (fun tc => tc.constraintName.isSome)
    | .OtherStatement _ => true

/-! ### Helper lemmas about the layout primitives -/

theorem spaces_length (n : Nat) : (spaces n).length = n := by
  show (List.replicate n ' ').length = n
  simp

theorem alignLeft_length {s : String} {w : Nat} (h : s.length ≤ w) :
    (alignLeft s w).length = w := by
  rw [alignLeft, String.length_append, spaces_length]
  omega

theorem alignRight_length {s : String} {w : Nat} (h : s.length ≤ w) :
    (alignRight s w).length = w := by
  rw [alignRight, String.length_append, spaces_length]
  omega

theorem rustTrim_data (s : String) : (rustTrim s).data = trimChars s.data := rfl

theorem head?_dropWhile_false {α : Type} {p : α → Bool} :
    ∀ (l : List α) (c : α), (l.dropWhile p).head? = some c → p c = false := by
  intro l
  induction l with
  | nil =>
    intro c h
    simp [List.dropWhile] at h
  | cons a t ih =>
    intro c h
    by_cases hpa : p a
    · rw [List.dropWhile_cons_of_pos hpa] at h
      exact ih c h
    · rw [List.dropWhile_cons_of_neg hpa] at h
      simp only [List.head?_cons, Option.some.injEq] at h
      subst h
      exact Bool.eq_false_iff.mpr hpa

theorem getLast?_dropWhile_of_ne_nil {α : Type} (p : α → Bool) (l : List α)
    (h : l.dropWhile p ≠ []) :
    (l.dropWhile p).getLast? = l.getLast? := by
  conv_rhs => rw [← List.takeWhile_append_dropWhile p l]
  rw [List.getLast?_append_of_ne_nil _ h]

theorem trimChars_getLast? {cs : List Char} {c : Char}
    (h : (trimChars cs).getLast? = some c) : c.isWhitespace = false := by
  unfold trimChars at h
  rw [List.getLast?_reverse] at h
  exact head?_dropWhile_false _ _ h

theorem trimChars_head? {cs : List Char} {c : Char}
    (h : (trimChars cs).head? = some c) : c.isWhitespace = false := by
  unfold trimChars at h
  rw [List.head?_reverse] at h
  have hne : List.dropWhile Char.isWhitespace ((cs.dropWhile Char.isWhitespace).reverse) ≠ [] := by
    intro hnil
    rw [hnil] at h
    simp at h
  rw [getLast?_dropWhile_of_ne_nil _ _ hne, List.getLast?_reverse] at h
  exact head?_dropWhile_false _ _ h

theorem mem_dropWhile_of_neg {α : Type} {p : α → Bool} :
    ∀ {l : List α} {x : α}, x ∈ l → p x = false → x ∈ l.dropWhile p := by
  intro l
  induction l with
  | nil =>
    intro x hx _
    exact absurd hx (List.not_mem_nil x)
  | cons a t ih =>
    intro x hx hpx
    by_cases hpa : p a
    · rw [List.dropWhile_cons_of_pos hpa]
      rcases List.mem_cons.mp hx with h | h
      · subst h
        rw [hpx] at hpa
        exact absurd hpa (by simp)
      · exact ih h hpx
    · rw [List.dropWhile_cons_of_neg hpa]
      exact hx

theorem mem_trimChars {cs : List Char} {c : Char} (hm : c ∈ cs)
    (hw : c.isWhitespace = false) : c ∈ trimChars cs := by
  unfold trimChars
  rw [List.mem_reverse]
  refine mem_dropWhile_of_neg ?_ hw
  rw [List.mem_reverse]
  exact mem_dropWhile_of_neg hm hw

theorem rustTrim_length_pos {s : String} {c : Char} (hm : c ∈ s.data)
    (hw : c.isWhitespace = false) : 0 < (rustTrim s).length := by
  show 0 < (rustTrim s).data.length
  rw [rustTrim_data]
  exact List.length_pos.mpr (List.ne_nil_of_mem (mem_trimChars hm hw))

/-! ### Helper lemmas about the width folds -/

theorem init_le_foldl_max {α : Type} (g : α → Nat) :
    ∀ (l : List α) (a : Nat), a ≤ l.foldl (fun b y => max b (g y)) a := by
  intro l
  induction l with
  | nil => intro a; simp
  | cons x t ih =>
    intro a
    rw [List.foldl_cons]
    exact le_trans (Nat.le_max_left _ _) (ih _)

theorem le_foldl_max {α : Type} (g : α → Nat) :
    ∀ (l : List α) (a : Nat) (x : α), x ∈ l → g x ≤ l.foldl (fun b y => max b (g y)) a := by
  intro l
  induction l with
  | nil =>
    intro a x hx
    exact absurd hx (List.not_mem_nil x)
  | cons y t ih =>
    intro a x hx
    rw [List.foldl_cons]
    rcases List.mem_cons.mp hx with h | h
    · subst h
      exact le_trans (Nat.le_max_right _ _) (init_le_foldl_max g t _)
    · exact ih _ x h

theorem foldl_max_cases {α : Type} (g : α → Nat) :
    ∀ (l : List α) (a : Nat),
      l.foldl (fun b y => max b (g y)) a = a ∨
        ∃ x ∈ l, l.foldl (fun b y => max b (g y)) a = g x := by
  intro l
  induction l with
  | nil => intro a; left; rfl
  | cons y t ih =>
    intro a
    rw [List.foldl_cons]
    rcases ih (max a (g y)) with h | ⟨x, hx, heq⟩
    · rcases Nat.le_total a (g y) with hle | hle
      · right
        exact ⟨y, List.mem_cons_self _ _, by rw [h, Nat.max_eq_right hle]⟩
      · left
        rw [h, Nat.max_eq_left hle]
    · right
      exact ⟨x, List.mem_cons_of_mem _ hx, heq⟩

theorem foldl_max_attained {α : Type} (g : α → Nat) (l : List α) (h : l ≠ []) :
    ∃ x ∈ l, l.foldl (fun b y => max b (g y)) 0 = g x := by
  rcases foldl_max_cases g l 0 with h0 | hex
  · match l, h with
    | x :: t, _ =>
      refine ⟨x, List.mem_cons_self _ _, ?_⟩
      have h1 := le_foldl_max g (x :: t) 0 x (List.mem_cons_self _ _)
      omega
  · exact hex

theorem columnWidths_eq (rows : List (List String)) :
    columnWidths rows =
      ⟨rows.foldl (fun b r => max b (nthSeg r 0).length) 0,
       rows.foldl (fun b r => max b (nthSeg r 1).length) 0,
       rows.foldl (fun b r => max b (nthSeg r 2).length) 0,
       rows.foldl (fun b r => max b (nthSeg r 3).length) 0⟩ := by
  suffices h : ∀ acc : ColWidths,
      rows.foldl (fun acc r =>
        ⟨max acc.w0 (nthSeg r 0).length, max acc.w1 (nthSeg r 1).length,
         max acc.w2 (nthSeg r 2).length, max acc.w3 (nthSeg r 3).length⟩) acc =
      ⟨rows.foldl (fun b r => max b (nthSeg r 0).length) acc.w0,
       rows.foldl (fun b r => max b (nthSeg r 1).length) acc.w1,
       rows.foldl (fun b r => max b (nthSeg r 2).length) acc.w2,
       rows.foldl (fun b r => max b (nthSeg r 3).length) acc.w3⟩ from h ⟨0, 0, 0, 0⟩
  induction rows with
  | nil => intro acc; rfl
  | cons r t ih =>
    intro acc
    simp only [List.foldl_cons]
    rw [ih]

theorem constraintWidths_eq (rows : List (List String)) :
    constraintWidths rows =
      ⟨rows.foldl (fun b r => max b (nthSeg r 0).length) 0,
       rows.foldl (fun b r => max b (nthSeg r 1).length) 0,
       rows.foldl (fun b r => max b (nthSeg r 2).length) 0,
       rows.foldl (fun b r => max b (nthSeg r 3).length) 0,
       rows.foldl (fun b r => max b (nthSeg r 4).length) 0,
       rows.foldl (fun b r => max b (nthSeg r 5).length) 0,
       rows.foldl (fun b r => max b (nthSeg r 6).length) 0,
       rows.foldl (fun b r => max b (nthSeg r 7).length) 0⟩ := by
  suffices h : ∀ acc : ConWidths,
      rows.foldl (fun acc r =>
        ⟨max acc.w0 (nthSeg r 0).length, max acc.w1 (nthSeg r 1).length,
         max acc.w2 (nthSeg r 2).length, max acc.w3 (nthSeg r 3).length,
         max acc.w4 (nthSeg r 4).length, max acc.w5 (nthSeg r 5).length,
         max acc.w6 (nthSeg r 6).length, max acc.w7 (nthSeg r 7).length⟩) acc =
      ⟨rows.foldl (fun b r => max b (nthSeg r 0).length) acc.w0,
       rows.foldl (fun b r => max b (nthSeg r 1).length) acc.w1,
       rows.foldl (fun b r => max b (nthSeg r 2).length) acc.w2,
       rows.foldl (fun b r => max b (nthSeg r 3).length) acc.w3,
       rows.foldl (fun b r => max b (nthSeg r 4).length) acc.w4,
       rows.foldl (fun b r => max b (nthSeg r 5).length) acc.w5,
       rows.foldl (fun b r => max b (nthSeg r 6).length) acc.w6,
       rows.foldl (fun b r => max b (nthSeg r 7).length) acc.w7⟩ from h ⟨0, 0, 0, 0, 0, 0, 0, 0⟩
  induction rows with
  | nil => intro acc; rfl
  | cons r t ih =>
    intro acc
    simp only [List.foldl_cons]
    rw [ih]

theorem columnWidths_toList_getD (rows : List (List String)) (i : Nat) (hi : i < 4) :
    (columnWidths rows).toList.getD i 0 =
      rows.foldl (fun b r => max b (nthSeg r i).length) 0 := by
  rw [columnWidths_eq]
  interval_cases i <;> rfl

theorem constraintWidths_toList_getD (rows : List (List String)) (i : Nat) (hi : i < 8) :
    (constraintWidths rows).toList.getD i 0 =
      rows.foldl (fun b r => max b (nthSeg r i).length) 0 := by
  rw [constraintWidths_eq]
  interval_cases i <;> rfl

theorem nthSeg_le_columnWidths {rows : List (List String)} {r : List String}
    (h : r ∈ rows) {i : Nat} (hi : i < 4) :
    (nthSeg r i).length ≤ (columnWidths rows).toList.getD i 0 := by
  rw [columnWidths_toList_getD rows i hi]
  exact le_foldl_max (fun r => (nthSeg r i).length) rows 0 r h

theorem nthSeg_le_constraintWidths {rows : List (List String)} {r : List String}
    (h : r ∈ rows) {i : Nat} (hi : i < 8) :
    (nthSeg r i).length ≤ (constraintWidths rows).toList.getD i 0 := by
  rw [constraintWidths_toList_getD rows i hi]
  exact le_foldl_max (fun r => (nthSeg r i).length) rows 0 r h

/-! ### Claim C9 -/

/-- C9: under the precondition that every table constraint carries a name,
constraint segment extraction is total and always yields an 8-element
sequence beginning with `CONSTRAINT <name>`; when a constraint lacks a name
the extraction fails (with the `unwrap` panic) rather than synthesizing a
placeholder name. -/
theorem constraint_segments_name_precondition :
    (∀ (tc : TableConstraint) (n : String), tc.constraintName = some n →
      ∃ rest : List String,
        tc.segments = .ok (("CONSTRAINT " ++ n) :: rest) ∧ rest.length = 7) ∧
    (∀ tc : TableConstraint, tc.constraintName = none →
      tc.segments = .error (.panicked unwrapPanicMsg)) := by
  constructor
  · intro tc n h
    cases tc with
    | Unique name columns is_primary =>
      cases name with
      | none => simp [TableConstraint.constraintName] at h
      | some m =>
        simp only [TableConstraint.constraintName, Option.some.injEq] at h
        subst h
        exact ⟨_, rfl, rfl⟩
    | ForeignKey name columns foreign_table referred_columns on_delete on_update =>
      cases name with
      | none => simp [TableConstraint.constraintName] at h
      | some m =>
        simp only [TableConstraint.constraintName, Option.some.injEq] at h
        subst h
        exact ⟨_, rfl, rfl⟩
    | Check name expr =>
      cases name with
      | none => simp [TableConstraint.constraintName] at h
      | some m =>
        simp only [TableConstraint.constraintName, Option.some.injEq] at h
        subst h
        exact ⟨_, rfl, rfl⟩
  · intro tc h
    cases tc with
    | Unique name columns is_primary =>
      cases name with
      | none => rfl
      | some m => simp [TableConstraint.constraintName] at h
    | ForeignKey name columns foreign_table referred_columns on_delete on_update =>
      cases name with
      | none => rfl
      | some m => simp [TableConstraint.constraintName] at h
    | Check name expr =>
      cases name with
      | none => rfl
      | some m => simp [TableConstraint.constraintName] at h

/-- Witness for C9 at concrete constraints. -/
theorem constraint_segments_name_precondition_witness :
    (∃ rest : List String,
      (TableConstraint.Unique (some "u") ["a"] true).segments =
        .ok (("CONSTRAINT " ++ "u") :: rest) ∧ rest.length = 7) ∧
    (TableConstraint.Unique none ["a"] true).segments =
      .error (.panicked unwrapPanicMsg) :=
  ⟨constraint_segments_name_precondition.1 _ "u" rfl,
   constraint_segments_name_precondition.2 _ rfl⟩

/-! ### Claim C10 -/

/-- C10: for every input string that the external parser accepts with zero
statements, `mierenneuke` returns `Ok` with the empty string, not an
error. -/
theorem mierenneuke_empty_ast (parse : String → Except AntError (List Statement))
    (sql : String) (h : parse sql = .ok []) :
    mierenneukeFull parse sql = .ok "" := by
  unfold mierenneukeFull
  rw [h]
  rfl

/-- Witness for C10 with a parser accepting everything as zero statements. -/
theorem mierenneuke_empty_ast_witness :
    mierenneukeFull (fun _ => Except.ok []) "" = Except.ok "" :=
  mierenneuke_empty_ast (fun _ => Except.ok []) "" rfl

/-! ### Claim C2 -/

/-- C2 counterexample: a column carrying an option that is neither a
nullability marker nor a `DEFAULT` (here the `Display` form of
`AUTO_INCREMENT`) is extracted *successfully* — the extractor is total and
returns the very row it would return had the option not been there at all,
so no unimplemented-feature error is ever signalled. -/
theorem columnDef_segments_ignores_other_option :
    ColumnDef.segments
        ⟨"id", "INT", [⟨none, ColumnOption.OtherOption "AUTO_INCREMENT"⟩]⟩ =
      ["id", "INT", "", ""] ∧
    ColumnDef.segments ⟨"id", "INT", []⟩ = ["id", "INT", "", ""] :=
  ⟨rfl, rfl⟩

theorem find?_map_filter {p : ColumnOption → Bool} {q : ColumnOptionDef → Bool}
    (hq : ∀ o : ColumnOptionDef, p o.option = true → q o = true) :
    ∀ l : List ColumnOptionDef,
      ((l.filter q).map (fun o => o.option)).find? p =
        (l.map (fun o => o.option)).find? p := by
  intro l
  induction l with
  | nil => rfl
  | cons o t ih =>
    by_cases hqo : q o
    · rw [List.filter_cons_of_pos hqo]
      simp only [List.map_cons]
      by_cases hpo : p o.option
      · rw [List.find?_cons_of_pos _ hpo, List.find?_cons_of_pos _ hpo]
      · rw [List.find?_cons_of_neg _ hpo, List.find?_cons_of_neg _ hpo]
        exact ih
    · have hpo : ¬ p o.option = true := fun hc => hqo (hq o hc)
      rw [List.filter_cons_of_neg hqo]
      simp only [List.map_cons]
      rw [List.find?_cons_of_neg _ hpo]
      exact ih

/-- C2 (amended): column options other than nullability markers and
`DEFAULT` clauses are silently ignored — extraction always succeeds and its
result is unchanged by deleting every such option from the column. -/
theorem columnDef_segments_drops_unsupported (c : ColumnDef) :
    ColumnDef.segments
        ⟨c.name, c.data_type,
         c.options.filter (fun o => o.option.isNullability || o.option.isDefault)⟩ =
      ColumnDef.segments c := by
  unfold ColumnDef.segments
  rw [find?_map_filter (fun o ho => by simp [ho]) c.options,
      find?_map_filter (fun o ho => by simp [ho]) c.options]

/-! ### Claim C4 -/

/-- C4: both width calculators return, at every position `i`, the maximum
string length of segment `i` over all rows in the list, and `0` at every
position when the list is empty. -/
theorem widths_are_componentwise_maxima (rows : List (List String)) (i : Nat) :
    (i < 4 →
      (∀ r ∈ rows, (nthSeg r i).length ≤ (columnWidths rows).toList.getD i 0) ∧
      (rows ≠ [] → ∃ r ∈ rows, (nthSeg r i).length = (columnWidths rows).toList.getD i 0) ∧
      (rows = [] → (columnWidths rows).toList.getD i 0 = 0)) ∧
    (i < 8 →
      (∀ r ∈ rows, (nthSeg r i).length ≤ (constraintWidths rows).toList.getD i 0) ∧
      (rows ≠ [] → ∃ r ∈ rows, (nthSeg r i).length = (constraintWidths rows).toList.getD i 0) ∧
      (rows = [] → (constraintWidths rows).toList.getD i 0 = 0)) := by
  constructor
  · intro hi
    refine ⟨fun r hr => nthSeg_le_columnWidths hr hi, fun hne => ?_, fun hnil => ?_⟩
    · rw [columnWidths_toList_getD rows i hi]
      obtain ⟨x, hx, heq⟩ := foldl_max_attained (fun r => (nthSeg r i).length) rows hne
      exact ⟨x, hx, heq.symm⟩
    · subst hnil
      rw [columnWidths_toList_getD _ i hi]
      rfl
  · intro hi
    refine ⟨fun r hr => nthSeg_le_constraintWidths hr hi, fun hne => ?_, fun hnil => ?_⟩
    · rw [constraintWidths_toList_getD rows i hi]
      obtain ⟨x, hx, heq⟩ := foldl_max_attained (fun r => (nthSeg r i).length) rows hne
      exact ⟨x, hx, heq.symm⟩
    · subst hnil
      rw [constraintWidths_toList_getD _ i hi]
      rfl

/-- Witness for C4 at a concrete one-row list and position 0. -/
theorem widths_are_componentwise_maxima_witness :
    (∀ r ∈ [["ab"]], (nthSeg r 0).length ≤ (columnWidths [["ab"]]).toList.getD 0 0) ∧
    (∃ r ∈ [["ab"]], (nthSeg r 0).length = (columnWidths [["ab"]]).toList.getD 0 0) ∧
    (∀ r ∈ [["ab"]], (nthSeg r 0).length ≤ (constraintWidths [["ab"]]).toList.getD 0 0) := by
  obtain ⟨h4, h8⟩ := widths_are_componentwise_maxima [["ab"]] 0
  obtain ⟨hle, hat, _⟩ := h4 (by omega)
  obtain ⟨hle8, _, _⟩ := h8 (by omega)
  exact ⟨hle, hat (by simp), hle8⟩

/-! ### Claim C5 -/

/-- C5: every column row rendered against the widths computed from its own
statement's column rows consists of the four fields padded to exactly the
per-position widths — name, type and default left-justified, nullability
right-justified — separated by single spaces, with trailing whitespace
preserved (nothing is trimmed from the assembled row). -/
theorem column_row_alignment (rows : List (List String)) (r : List String) (h : r ∈ rows) :
    ∃ p0 p1 p2 p3 : Nat,
      renderColumnRow (columnWidths rows) r =
        (nthSeg r 0 ++ spaces p0) ++ " " ++ (nthSeg r 1 ++ spaces p1) ++ " " ++
          (spaces p2 ++ nthSeg r 2) ++ " " ++ (nthSeg r 3 ++ spaces p3) ∧
      (nthSeg r 0 ++ spaces p0).length = (columnWidths rows).w0 ∧
      (nthSeg r 1 ++ spaces p1).length = (columnWidths rows).w1 ∧
      (spaces p2 ++ nthSeg r 2).length = (columnWidths rows).w2 ∧
      (nthSeg r 3 ++ spaces p3).length = (columnWidths rows).w3 := by
  have h0 : (nthSeg r 0).length ≤ (columnWidths rows).w0 :=
    nthSeg_le_columnWidths h (show 0 < 4 by omega)
  have h1 : (nthSeg r 1).length ≤ (columnWidths rows).w1 :=
    nthSeg_le_columnWidths h (show 1 < 4 by omega)
  have h2 : (nthSeg r 2).length ≤ (columnWidths rows).w2 :=
    nthSeg_le_columnWidths h (show 2 < 4 by omega)
  have h3 : (nthSeg r 3).length ≤ (columnWidths rows).w3 :=
    nthSeg_le_columnWidths h (show 3 < 4 by omega)
  refine ⟨(columnWidths rows).w0 - (nthSeg r 0).length,
          (columnWidths rows).w1 - (nthSeg r 1).length,
          (columnWidths rows).w2 - (nthSeg r 2).length,
          (columnWidths rows).w3 - (nthSeg r 3).length,
          rfl, ?_, ?_, ?_, ?_⟩
  · rw [String.length_append, spaces_length]; omega
  · rw [String.length_append, spaces_length]; omega
  · rw [String.length_append, spaces_length]; omega
  · rw [String.length_append, spaces_length]; omega

/-- Witness for C5 at a concrete two-row list. -/
theorem column_row_alignment_witness :
    ∃ p0 p1 p2 p3 : Nat,
      renderColumnRow (columnWidths [["a", "INT", "NOT NULL", ""], ["bb", "TEXT", "NULL", ""]])
          ["a", "INT", "NOT NULL", ""] =
        (nthSeg ["a", "INT", "NOT NULL", ""] 0 ++ spaces p0) ++ " " ++
          (nthSeg ["a", "INT", "NOT NULL", ""] 1 ++ spaces p1) ++ " " ++
          (spaces p2 ++ nthSeg ["a", "INT", "NOT NULL", ""] 2) ++ " " ++
          (nthSeg ["a", "INT", "NOT NULL", ""] 3 ++ spaces p3) ∧
      (nthSeg ["a", "INT", "NOT NULL", ""] 0 ++ spaces p0).length =
        (columnWidths [["a", "INT", "NOT NULL", ""], ["bb", "TEXT", "NULL", ""]]).w0 ∧
      (nthSeg ["a", "INT", "NOT NULL", ""] 1 ++ spaces p1).length =
        (columnWidths [["a", "INT", "NOT NULL", ""], ["bb", "TEXT", "NULL", ""]]).w1 ∧
      (spaces p2 ++ nthSeg ["a", "INT", "NOT NULL", ""] 2).length =
        (columnWidths [["a", "INT", "NOT NULL", ""], ["bb", "TEXT", "NULL", ""]]).w2 ∧
      (nthSeg ["a", "INT", "NOT NULL", ""] 3 ++ spaces p3).length =
        (columnWidths [["a", "INT", "NOT NULL", ""], ["bb", "TEXT", "NULL", ""]]).w3 :=
  column_row_alignment [["a", "INT", "NOT NULL", ""], ["bb", "TEXT", "NULL", ""]]
    ["a", "INT", "NOT NULL", ""] (List.mem_cons_self _ _)

/-! ### Claim C8 -/

theorem find?_first_match {α : Type} {p : α → Bool} :
    ∀ (pre : List α) (x : α) (post : List α),
      (∀ y ∈ pre, p y = false) → p x = true →
      (pre ++ x :: post).find? p = some x := by
  intro pre
  induction pre with
  | nil =>
    intro x post _ hx
    exact List.find?_cons_of_pos _ hx
  | cons a t ih =>
    intro x post hpre hx
    have ha : p a = false := hpre a (List.mem_cons_self _ _)
    rw [List.cons_append, List.find?_cons_of_neg _ (by simp [ha])]
    exact ih x post (fun y hy => hpre y (List.mem_cons_of_mem _ hy)) hx

/-- C8: the field extractor produces exactly the 4-element sequence
`[name, data type, nullability, default]`; the nullability field is the
rendering of the first `NULL`/`NOT NULL` option (empty if none, first match
winning) and the default field is the rendering of the first `DEFAULT`
option (empty if none). -/
theorem columnDef_segments_contract (c : ColumnDef) :
    ∃ s2 s3 : String,
      c.segments = [c.name, c.data_type, s2, s3] ∧
      ((∀ o ∈ c.options, o.option.isNullability = false) → s2 = "") ∧
      (∀ (pre : List ColumnOptionDef) (opt : ColumnOptionDef) (post : List ColumnOptionDef),
        c.options = pre ++ opt :: post → opt.option.isNullability = true →
        (∀ o ∈ pre, o.option.isNullability = false) → s2 = opt.option.render) ∧
      ((∀ o ∈ c.options, o.option.isDefault = false) → s3 = "") ∧
      (∀ (pre : List ColumnOptionDef) (opt : ColumnOptionDef) (post : List ColumnOptionDef),
        c.options = pre ++ opt :: post → opt.option.isDefault = true →
        (∀ o ∈ pre, o.option.isDefault = false) → s3 = opt.option.render) := by
  refine ⟨_, _, rfl, ?_, ?_, ?_, ?_⟩
  · intro hall
    have hnone : (c.options.map (fun o => o.option)).find? (fun o => o.isNullability) = none := by
      rw [List.find?_eq_none]
      intro x hx
      obtain ⟨o, ho, rfl⟩ := List.mem_map.mp hx
      simp [hall o ho]
    rw [hnone]
  · intro pre opt post hsplit hopt hpre
    have hsome : (c.options.map (fun o => o.option)).find? (fun o => o.isNullability) =
        some opt.option := by
      rw [hsplit, List.map_append, List.map_cons]
      refine find?_first_match _ _ _ (fun y hy => ?_) hopt
      obtain ⟨o, ho, rfl⟩ := List.mem_map.mp hy
      exact hpre o ho
    rw [hsome]
  · intro hall
    have hnone : (c.options.map (fun o => o.option)).find? (fun o => o.isDefault) = none := by
      rw [List.find?_eq_none]
      intro x hx
      obtain ⟨o, ho, rfl⟩ := List.mem_map.mp hx
      simp [hall o ho]
    rw [hnone]
  · intro pre opt post hsplit hopt hpre
    have hsome : (c.options.map (fun o => o.option)).find? (fun o => o.isDefault) =
        some opt.option := by
      rw [hsplit, List.map_append, List.map_cons]
      refine find?_first_match _ _ _ (fun y hy => ?_) hopt
      obtain ⟨o, ho, rfl⟩ := List.mem_map.mp hy
      exact hpre o ho
    rw [hsome]

/-- Witness for C8 on a column with both a nullability and a default option. -/
theorem columnDef_segments_contract_witness :
    ColumnDef.segments
        ⟨"a", "INT", [⟨none, ColumnOption.NotNull⟩, ⟨none, ColumnOption.Default "1"⟩]⟩ =
      ["a", "INT", "NOT NULL", "DEFAULT 1"] := by
  obtain ⟨s2, s3, heq, _, hfirst, _, hdfirst⟩ :=
    columnDef_segments_contract
      ⟨"a", "INT", [⟨none, ColumnOption.NotNull⟩, ⟨none, ColumnOption.Default "1"⟩]⟩
  rw [heq,
    hfirst [] ⟨none, ColumnOption.NotNull⟩ [⟨none, ColumnOption.Default "1"⟩] rfl rfl
      (fun o ho => absurd ho (List.not_mem_nil o)),
    hdfirst [⟨none, ColumnOption.NotNull⟩] ⟨none, ColumnOption.Default "1"⟩ [] rfl rfl
      (fun o ho => by
        rcases List.mem_cons.mp ho with hh | hh
        · subst hh; rfl
        · exact absurd hh (List.not_mem_nil o))]
  rfl

/-! ### Claim C3 -/

theorem parenWrap_length (s : String) : ("(" ++ s ++ ")").length = s.length + 2 := by
  rw [String.length_append, String.length_append]
  have h1 : ("(" : String).length = 1 := rfl
  have h2 : (")" : String).length = 1 := rfl
  omega

theorem rustTrim_head? {s : String} {c : Char}
    (h : (rustTrim s).data.head? = some c) : c.isWhitespace = false :=
  trimChars_head? h

theorem rustTrim_getLast? {s : String} {c : Char}
    (h : (rustTrim s).data.getLast? = some c) : c.isWhitespace = false :=
  trimChars_getLast? h

/-- C3 counterexample: for a `CHECK` constraint the local column-list segment
(position 2) is empty, yet the rendered row wraps it in parentheses anyway,
producing a dangling `()` — refuting the claim that the column-list field is
parenthesised only when non-empty. -/
theorem check_constraint_renders_empty_parens :
    (TableConstraint.Check (some "c") "a > 0").segments =
      .ok ["CONSTRAINT c", "CHECK (a > 0)", "", "", "", "", "", ""] ∧
    nthSeg ["CONSTRAINT c", "CHECK (a > 0)", "", "", "", "", "", ""] 2 = "" ∧
    renderConstraintRow
        (constraintWidths [["CONSTRAINT c", "CHECK (a > 0)", "", "", "", "", "", ""]])
        ["CONSTRAINT c", "CHECK (a > 0)", "", "", "", "", "", ""] =
      "CONSTRAINT c CHECK (a > 0) ()" :=
  ⟨rfl, rfl, by decide⟩

/-- C3 (amended): in every rendered constraint row the local column-list
field (segment 2) is wrapped in parentheses unconditionally — an empty
segment still renders as `()` — while the referenced-column-list field
(segment 5) is wrapped only when non-empty; both fields are padded to their
computed width plus 2. -/
theorem constraint_row_paren_fields (rows : List (List String)) (r : List String)
    (h : r ∈ rows) :
    ∃ (u v x : String) (p2 p5 : Nat),
      renderConstraintRow (constraintWidths rows) r =
        rustTrim (u ++ (("(" ++ nthSeg r 2 ++ ")") ++ spaces p2) ++ v ++
          ((if (nthSeg r 5).length > 0 then "(" ++ nthSeg r 5 ++ ")" else "") ++ spaces p5) ++
          x) ∧
      (("(" ++ nthSeg r 2 ++ ")") ++ spaces p2).length = (constraintWidths rows).w2 + 2 ∧
      ((if (nthSeg r 5).length > 0 then "(" ++ nthSeg r 5 ++ ")" else "") ++ spaces p5).length =
        (constraintWidths rows).w5 + 2 := by
  have h2 : (nthSeg r 2).length ≤ (constraintWidths rows).w2 :=
    nthSeg_le_constraintWidths h (show 2 < 8 by omega)
  have h5 : (nthSeg r 5).length ≤ (constraintWidths rows).w5 :=
    nthSeg_le_constraintWidths h (show 5 < 8 by omega)
  refine ⟨alignLeft (nthSeg r 0) (constraintWidths rows).w0 ++ " " ++
        alignLeft (nthSeg r 1) (constraintWidths rows).w1 ++ " ",
      " " ++ alignLeft (nthSeg r 3) (constraintWidths rows).w3 ++ " " ++
        alignLeft (nthSeg r 4) (constraintWidths rows).w4 ++ " ",
      " " ++ alignLeft (nthSeg r 6) (constraintWidths rows).w6 ++ " " ++
        alignLeft (nthSeg r 7) (constraintWidths rows).w7,
      ((constraintWidths rows).w2 + 2) - ("(" ++ nthSeg r 2 ++ ")").length,
      ((constraintWidths rows).w5 + 2) -
        (if (nthSeg r 5).length > 0 then "(" ++ nthSeg r 5 ++ ")" else "").length,
      ?_, ?_, ?_⟩
  · unfold renderConstraintRow alignLeft
    simp only [String.append_assoc]
  · rw [String.length_append, spaces_length, parenWrap_length]
    omega
  · by_cases hc : (nthSeg r 5).length > 0
    · rw [if_pos hc, String.length_append, spaces_length, parenWrap_length]
      omega
    · rw [if_neg hc, String.length_append, spaces_length]
      have he : ("" : String).length = 0 := rfl
      omega

/-- Witness for C3 (amended) at a concrete one-row list built from a `CHECK`
constraint row, whose parenthesised fields are both empty. -/
theorem constraint_row_paren_fields_witness :
    ∃ (u v x : String) (p2 p5 : Nat),
      renderConstraintRow
          (constraintWidths [["CONSTRAINT c", "CHECK (x)", "", "", "", "", "", ""]])
          ["CONSTRAINT c", "CHECK (x)", "", "", "", "", "", ""] =
        rustTrim (u ++ (("(" ++ "" ++ ")") ++ spaces p2) ++ v ++
          ((if ("" : String).length > 0 then "(" ++ "" ++ ")" else "") ++ spaces p5) ++ x) ∧
      (("(" ++ "" ++ ")") ++ spaces p2).length = 0 + 2 ∧
      ((if ("" : String).length > 0 then "(" ++ "" ++ ")" else "") ++ spaces p5).length =
        0 + 2 :=
  constraint_row_paren_fields _ _ (List.mem_cons_self _ _)

/-! ### Claim C6 -/

/-- C6: every constraint row is the whitespace-trimmed assembly of all 8
fields left-justified to the shared per-position widths computed over all of
the statement's constraint rows (the two parenthesis-wrapped fields to
width `+ 2`), separated by single spaces; the trimmed line neither starts
nor ends with whitespace, so rows whose later fields are all empty carry no
dangling spaces. -/
theorem constraint_row_alignment_trimmed (rows : List (List String)) (r : List String)
    (h : r ∈ rows) :
    ∃ p0 p1 p2 p3 p4 p5 p6 p7 : Nat,
      renderConstraintRow (constraintWidths rows) r =
        rustTrim ((nthSeg r 0 ++ spaces p0) ++ " " ++ (nthSeg r 1 ++ spaces p1) ++ " " ++
          (("(" ++ nthSeg r 2 ++ ")") ++ spaces p2) ++ " " ++ (nthSeg r 3 ++ spaces p3) ++ " " ++
          (nthSeg r 4 ++ spaces p4) ++ " " ++
          ((if (nthSeg r 5).length > 0 then "(" ++ nthSeg r 5 ++ ")" else "") ++ spaces p5) ++
          " " ++ (nthSeg r 6 ++ spaces p6) ++ " " ++ (nthSeg r 7 ++ spaces p7)) ∧
      (nthSeg r 0 ++ spaces p0).length = (constraintWidths rows).w0 ∧
      (nthSeg r 1 ++ spaces p1).length = (constraintWidths rows).w1 ∧
      (("(" ++ nthSeg r 2 ++ ")") ++ spaces p2).length = (constraintWidths rows).w2 + 2 ∧
      (nthSeg r 3 ++ spaces p3).length = (constraintWidths rows).w3 ∧
      (nthSeg r 4 ++ spaces p4).length = (constraintWidths rows).w4 ∧
      ((if (nthSeg r 5).length > 0 then "(" ++ nthSeg r 5 ++ ")" else "") ++ spaces p5).length =
        (constraintWidths rows).w5 + 2 ∧
      (nthSeg r 6 ++ spaces p6).length = (constraintWidths rows).w6 ∧
      (nthSeg r 7 ++ spaces p7).length = (constraintWidths rows).w7 ∧
      (∀ c, (renderConstraintRow (constraintWidths rows) r).data.head? = some c →
        c.isWhitespace = false) ∧
      (∀ c, (renderConstraintRow (constraintWidths rows) r).data.getLast? = some c →
        c.isWhitespace = false) := by
  have h0 : (nthSeg r 0).length ≤ (constraintWidths rows).w0 :=
    nthSeg_le_constraintWidths h (show 0 < 8 by omega)
  have h1 : (nthSeg r 1).length ≤ (constraintWidths rows).w1 :=
    nthSeg_le_constraintWidths h (show 1 < 8 by omega)
  have h2 : (nthSeg r 2).length ≤ (constraintWidths rows).w2 :=
    nthSeg_le_constraintWidths h (show 2 < 8 by omega)
  have h3 : (nthSeg r 3).length ≤ (constraintWidths rows).w3 :=
    nthSeg_le_constraintWidths h (show 3 < 8 by omega)
  have h4 : (nthSeg r 4).length ≤ (constraintWidths rows).w4 :=
    nthSeg_le_constraintWidths h (show 4 < 8 by omega)
  have h5 : (nthSeg r 5).length ≤ (constraintWidths rows).w5 :=
    nthSeg_le_constraintWidths h (show 5 < 8 by omega)
  have h6 : (nthSeg r 6).length ≤ (constraintWidths rows).w6 :=
    nthSeg_le_constraintWidths h (show 6 < 8 by omega)
  have h7 : (nthSeg r 7).length ≤ (constraintWidths rows).w7 :=
    nthSeg_le_constraintWidths h (show 7 < 8 by omega)
  refine ⟨(constraintWidths rows).w0 - (nthSeg r 0).length,
      (constraintWidths rows).w1 - (nthSeg r 1).length,
      ((constraintWidths rows).w2 + 2) - ("(" ++ nthSeg r 2 ++ ")").length,
      (constraintWidths rows).w3 - (nthSeg r 3).length,
      (constraintWidths rows).w4 - (nthSeg r 4).length,
      ((constraintWidths rows).w5 + 2) -
        (if (nthSeg r 5).length > 0 then "(" ++ nthSeg r 5 ++ ")" else "").length,
      (constraintWidths rows).w6 - (nthSeg r 6).length,
      (constraintWidths rows).w7 - (nthSeg r 7).length,
      rfl, ?_, ?_, ?_, ?_, ?_, ?_, ?_, ?_, ?_, ?_⟩
  · rw [String.length_append, spaces_length]; omega
  · rw [String.length_append, spaces_length]; omega
  · rw [String.length_append, spaces_length, parenWrap_length]; omega
  · rw [String.length_append, spaces_length]; omega
  · rw [String.length_append, spaces_length]; omega
  · by_cases hc : (nthSeg r 5).length > 0
    · rw [if_pos hc, String.length_append, spaces_length, parenWrap_length]
      omega
    · rw [if_neg hc, String.length_append, spaces_length]
      have he : ("" : String).length = 0 := rfl
      omega
  · rw [String.length_append, spaces_length]; omega
  · rw [String.length_append, spaces_length]; omega
  · exact fun c hc => rustTrim_head? hc
  · exact fun c hc => rustTrim_getLast? hc

/-- Witness for C6 at a concrete one-row list built from a `UNIQUE`
constraint row. -/
theorem constraint_row_alignment_trimmed_witness :
    ∃ p0 p1 p2 p3 p4 p5 p6 p7 : Nat,
      renderConstraintRow (constraintWidths [["CONSTRAINT u", "UNIQUE", "a", "", "", "", "", ""]])
          ["CONSTRAINT u", "UNIQUE", "a", "", "", "", "", ""] =
        rustTrim (("CONSTRAINT u" ++ spaces p0) ++ " " ++ ("UNIQUE" ++ spaces p1) ++ " " ++
          (("(" ++ "a" ++ ")") ++ spaces p2) ++ " " ++ ("" ++ spaces p3) ++ " " ++
          ("" ++ spaces p4) ++ " " ++
          ((if ("" : String).length > 0 then "(" ++ "" ++ ")" else "") ++ spaces p5) ++
          " " ++ ("" ++ spaces p6) ++ " " ++ ("" ++ spaces p7)) ∧
      ("CONSTRAINT u" ++ spaces p0).length = 12 ∧
      ("UNIQUE" ++ spaces p1).length = 6 ∧
      (("(" ++ "a" ++ ")") ++ spaces p2).length = 1 + 2 ∧
      ("" ++ spaces p3).length = 0 ∧
      ("" ++ spaces p4).length = 0 ∧
      ((if ("" : String).length > 0 then "(" ++ "" ++ ")" else "") ++ spaces p5).length = 0 + 2 ∧
      ("" ++ spaces p6).length = 0 ∧
      ("" ++ spaces p7).length = 0 ∧
      (∀ c, (renderConstraintRow
          (constraintWidths [["CONSTRAINT u", "UNIQUE", "a", "", "", "", "", ""]])
          ["CONSTRAINT u", "UNIQUE", "a", "", "", "", "", ""]).data.head? = some c →
        c.isWhitespace = false) ∧
      (∀ c, (renderConstraintRow
          (constraintWidths [["CONSTRAINT u", "UNIQUE", "a", "", "", "", "", ""]])
          ["CONSTRAINT u", "UNIQUE", "a", "", "", "", "", ""]).data.getLast? = some c →
        c.isWhitespace = false) :=
  constraint_row_alignment_trimmed _ _ (List.mem_cons_self _ _)

/-! ### Helper lemmas for the orchestrator claims -/

theorem string_empty_append (s : String) : "" ++ s = s := rfl

theorem string_append_empty (s : String) : s ++ "" = s := by
  apply String.ext
  rw [String.data_append]
  exact List.append_nil _

theorem mem_data_append_left {s t : String} {c : Char} (h : c ∈ s.data) :
    c ∈ (s ++ t).data := by
  rw [String.data_append]
  exact List.mem_append_left _ h

theorem segments_head {tc : TableConstraint} {r : List String}
    (h : tc.segments = .ok r) : ∃ n : String, nthSeg r 0 = "CONSTRAINT " ++ n := by
  cases tc with
  | Unique name columns is_primary =>
    cases name with
    | none =>
      have h' : (Except.error (AntError.panicked unwrapPanicMsg) :
          Except AntError (List String)) = .ok r := h
      simp at h'
    | some m =>
      obtain rfl := Except.ok.inj h
      exact ⟨m, rfl⟩
  | ForeignKey name columns foreign_table referred_columns on_delete on_update =>
    cases name with
    | none =>
      have h' : (Except.error (AntError.panicked unwrapPanicMsg) :
          Except AntError (List String)) = .ok r := h
      simp at h'
    | some m =>
      obtain rfl := Except.ok.inj h
      exact ⟨m, rfl⟩
  | Check name expr =>
    cases name with
    | none =>
      have h' : (Except.error (AntError.panicked unwrapPanicMsg) :
          Except AntError (List String)) = .ok r := h
      simp at h'
    | some m =>
      obtain rfl := Except.ok.inj h
      exact ⟨m, rfl⟩

theorem renderConstraintRow_length_pos {ws : ConWidths} {tc : TableConstraint}
    {r : List String} (h : tc.segments = .ok r) :
    0 < (renderConstraintRow ws r).length := by
  obtain ⟨n, hn⟩ := segments_head h
  unfold renderConstraintRow
  refine rustTrim_length_pos (c := 'C') ?_ (by decide)
  iterate 14 apply mem_data_append_left
  rw [alignLeft, hn]
  apply mem_data_append_left
  apply mem_data_append_left
  decide

theorem mapM_segments_ok :
    ∀ (cons : List TableConstraint) (segs : List (List String)),
      cons.mapM TableConstraint.segments = .ok segs →
      segs.length = cons.length ∧
        ∀ ss ∈ segs, ∃ tc ∈ cons, TableConstraint.segments tc = .ok ss := by
  intro cons
  induction cons with
  | nil =>
    intro segs h
    rw [List.mapM_nil] at h
    have h' : (Except.ok [] : Except AntError (List (List String))) = .ok segs := h
    obtain rfl := Except.ok.inj h'
    exact ⟨rfl, fun ss hss => absurd hss (List.not_mem_nil ss)⟩
  | cons tc t ih =>
    intro segs h
    rw [List.mapM_cons] at h
    cases hs : TableConstraint.segments tc with
    | error e =>
      rw [hs] at h
      have h' : (Except.error e : Except AntError (List (List String))) = .ok segs := h
      simp at h'
    | ok s =>
      rw [hs] at h
      cases hr : t.mapM TableConstraint.segments with
      | error e =>
        rw [hr] at h
        have h' : (Except.error e : Except AntError (List (List String))) = .ok segs := h
        simp at h'
      | ok rest =>
        rw [hr] at h
        have h' : (Except.ok (s :: rest) : Except AntError (List (List String))) = .ok segs := h
        obtain rfl := Except.ok.inj h'
        obtain ⟨hlen, hmem⟩ := ih rest hr
        refine ⟨by simp [hlen], fun ss hss => ?_⟩
        rcases List.mem_cons.mp hss with hh | hh
        · subst hh
          exact ⟨tc, List.mem_cons_self _ _, hs⟩
        · obtain ⟨tc', htc', hseg⟩ := hmem ss hh
          exact ⟨tc', List.mem_cons_of_mem _ htc', hseg⟩

theorem segments_isOk_of_named {tc : TableConstraint}
    (h : tc.constraintName.isSome = true) :
    ∃ segs, tc.segments = Except.ok segs := by
  cases tc with
  | Unique name columns is_primary =>
    cases name with
    | none => simp [TableConstraint.constraintName] at h
    | some m => exact ⟨_, rfl⟩
  | ForeignKey name columns foreign_table referred_columns on_delete on_update =>
    cases name with
    | none => simp [TableConstraint.constraintName] at h
    | some m => exact ⟨_, rfl⟩
  | Check name expr =>
    cases name with
    | none => simp [TableConstraint.constraintName] at h
    | some m => exact ⟨_, rfl⟩

theorem mapM_segments_ok_of_named :
    ∀ cons : List TableConstraint,
      (∀ tc ∈ cons, tc.constraintName.isSome = true) →
      ∃ segs, cons.mapM TableConstraint.segments = Except.ok segs := by
  intro cons
  induction cons with
  | nil =>
    intro _
    exact ⟨[], by rw [List.mapM_nil]; rfl⟩
  | cons tc t ih =>
    intro hall
    obtain ⟨s, hs⟩ := segments_isOk_of_named (hall tc (List.mem_cons_self _ _))
    obtain ⟨rest, hrest⟩ := ih (fun x hx => hall x (List.mem_cons_of_mem _ hx))
    refine ⟨s :: rest, ?_⟩
    rw [List.mapM_cons, hs, hrest]
    rfl

theorem processCreateTable_isOk (name : String) (cols : List ColumnDef)
    {cons : List TableConstraint}
    (h : ∀ tc ∈ cons, tc.constraintName.isSome = true) :
    ∃ out, processCreateTable name cols cons = .ok out := by
  obtain ⟨segs, hsegs⟩ := mapM_segments_ok_of_named cons h
  exact ⟨_, by unfold processCreateTable; rw [hsegs]; rfl⟩

theorem foldl_error_of_unsupported :
    ∀ (ast : List Statement) (acc : String),
      allConstraintsNamed ast = true →
      (∃ s ∈ ast, s.isCreateTable = false) →
      ast.foldlM mierenneukeStep acc = .error (.panicked todoPanicMsg) := by
  intro ast
  induction ast with
  | nil =>
    intro acc _ hex
    obtain ⟨s, hs, _⟩ := hex
    exact absurd hs (List.not_mem_nil s)
  | cons s t ih =>
    intro acc hnamed hex
    rw [List.foldlM_cons]
    have hnamed' : allConstraintsNamed t = true := by
      unfold allConstraintsNamed at hnamed ⊢
      rw [List.all_cons, Bool.and_eq_true] at hnamed
      exact hnamed.2
    cases s with
    | OtherStatement d => rfl
    | CreateTable n cs co =>
      have hco : ∀ tc ∈ co, tc.constraintName.isSome = true := by
        unfold allConstraintsNamed at hnamed
        rw [List.all_cons, Bool.and_eq_true] at hnamed
        have h1 : co.all (fun tc => tc.constraintName.isSome) = true := hnamed.1
        exact fun tc htc => List.all_eq_true.mp h1 tc htc
      obtain ⟨piece, hpiece⟩ := processCreateTable_isOk n cs hco
      have hstep : mierenneukeStep acc (.CreateTable n cs co) = .ok (acc ++ piece) := by
        show Except.map (fun piece => acc ++ piece) (processCreateTable n cs co) =
          Except.ok (acc ++ piece)
        rw [hpiece]
        rfl
      rw [hstep]
      have hgoal : t.foldlM mierenneukeStep (acc ++ piece) =
          .error (.panicked todoPanicMsg) := by
        apply ih _ hnamed'
        obtain ⟨s', hs', hcs'⟩ := hex
        rcases List.mem_cons.mp hs' with hh | hh
        · subst hh
          simp [Statement.isCreateTable] at hcs'
        · exact ⟨s', hh, hcs'⟩
      exact hgoal

/-! ### Claim C1 -/

/-- C1: for every parse result containing a statement that is not a
`CREATE TABLE` (under the spec's global precondition that all constraints
are named, so that earlier statements process cleanly), `mierenneuke`'s
result is the unsupported-statement failure — in the source the `todo!()`
panic, modelled as the `not yet implemented` panic error — and no output is
produced. -/
theorem mierenneuke_unsupported_statement (parse : String → Except AntError (List Statement))
    (sql : String) (ast : List Statement)
    (hp : parse sql = .ok ast)
    (hnamed : allConstraintsNamed ast = true)
    (hex : ∃ s ∈ ast, s.isCreateTable = false) :
    mierenneukeFull parse sql = .error (.panicked todoPanicMsg) := by
  unfold mierenneukeFull
  rw [hp]
  exact foldl_error_of_unsupported ast "" hnamed hex

/-- Witness for C1 at the spec's Scenario 4 input `DELETE FROM t`. -/
theorem mierenneuke_unsupported_statement_witness :
    mierenneukeFull (fun _ => Except.ok [Statement.OtherStatement "DELETE FROM t"])
        "DELETE FROM t" = .error (.panicked todoPanicMsg) :=
  mierenneuke_unsupported_statement _ _ _ rfl rfl
    ⟨Statement.OtherStatement "DELETE FROM t", List.mem_cons_self _ _, rfl⟩

/-! ### Claim C7 -/

theorem intercalate_go_append :
    ∀ (l : List String) (acc s : String),
      ∃ t : String, String.intercalate.go acc s l = acc ++ t := by
  intro l
  induction l with
  | nil =>
    intro acc s
    exact ⟨"", (string_append_empty acc).symm⟩
  | cons a as ih =>
    intro acc s
    obtain ⟨t, ht⟩ := ih (acc ++ s ++ a) s
    refine ⟨s ++ (a ++ t), ?_⟩
    have h2 : String.intercalate.go acc s (a :: as) = acc ++ s ++ a ++ t := ht
    rw [h2]
    simp [String.append_assoc]

theorem intercalate_cons_length_pos (sep x : String) (xs : List String)
    (hx : 0 < x.length) : 0 < (String.intercalate sep (x :: xs)).length := by
  obtain ⟨t, ht⟩ := intercalate_go_append xs x sep
  have h2 : String.intercalate sep (x :: xs) = x ++ t := ht
  rw [h2, String.length_append]
  omega

theorem constraintsBlock_length_pos {cons : List TableConstraint} {x : List String}
    {xs : List (List String)}
    (hmem : ∀ ss ∈ x :: xs, ∃ tc ∈ cons, TableConstraint.segments tc = .ok ss) :
    0 < (constraintsBlock (x :: xs)).length := by
  obtain ⟨tc, _, hseg⟩ := hmem x (List.mem_cons_self _ _)
  unfold constraintsBlock
  rw [List.map_cons]
  exact intercalate_cons_length_pos _ _ _ (renderConstraintRow_length_pos hseg)

theorem header_indent_merge (rest : String) :
    " (\n" ++ ("    " ++ rest) = " (\n    " ++ rest := by
  rw [← String.append_assoc]
  rfl

/-- C7: the output of a successfully formatted `CREATE TABLE` statement is
exactly the header, the column block indented by four spaces, then — only
when the statement has at least one constraint — the constraints block
prefixed by `  , `, then `)\n;`; a statement without constraints gets no
constraints block line. -/
theorem create_table_assembly (name : String) (cols : List ColumnDef)
    (cons : List TableConstraint) (out : String)
    (h : mierenneuke [Statement.CreateTable name cols cons] = .ok out) :
    ∃ conSegs : List (List String),
      cons.mapM TableConstraint.segments = .ok conSegs ∧
      out = "CREATE TABLE " ++ name ++ " (\n    " ++ columnsBlock cols ++ "\n" ++
        (if cons = [] then "" else "  , " ++ constraintsBlock conSegs ++ "\n") ++ ")\n;" := by
  cases hm : cons.mapM TableConstraint.segments with
  | error e =>
    have hcomp : mierenneuke [Statement.CreateTable name cols cons] = Except.error e := by
      unfold mierenneuke
      rw [List.foldlM_cons]
      have hstep : mierenneukeStep "" (Statement.CreateTable name cols cons) =
          Except.error e := by
        show Except.map (fun piece => "" ++ piece) (processCreateTable name cols cons) =
          Except.error e
        unfold processCreateTable
        rw [hm]
        rfl
      rw [hstep]
      rfl
    rw [hcomp] at h
    simp at h
  | ok conSegs =>
    have hcomp : mierenneuke [Statement.CreateTable name cols cons] =
        Except.ok ("" ++
          ("CREATE TABLE " ++ name ++ " (\n" ++ "    " ++ columnsBlock cols ++ "\n" ++
            (if (constraintsBlock conSegs).length > 0
             then "  , " ++ constraintsBlock conSegs ++ "\n" else "") ++ ")\n;")) := by
      unfold mierenneuke
      rw [List.foldlM_cons]
      have hstep : mierenneukeStep "" (Statement.CreateTable name cols cons) =
          Except.ok ("" ++
            ("CREATE TABLE " ++ name ++ " (\n" ++ "    " ++ columnsBlock cols ++ "\n" ++
              (if (constraintsBlock conSegs).length > 0
               then "  , " ++ constraintsBlock conSegs ++ "\n" else "") ++ ")\n;")) := by
        show Except.map (fun piece => "" ++ piece) (processCreateTable name cols cons) = _
        unfold processCreateTable
        rw [hm]
        rfl
      rw [hstep]
      rfl
    rw [hcomp] at h
    refine ⟨conSegs, rfl, ?_⟩
    obtain rfl := (Except.ok.inj h).symm
    rw [string_empty_append]
    by_cases hnil : cons = []
    · subst hnil
      obtain ⟨hlen, _⟩ := mapM_segments_ok [] conSegs hm
      have hcs : conSegs = [] := List.eq_nil_of_length_eq_zero hlen
      subst hcs
      rw [if_pos rfl,
        if_neg (by decide : ¬ (constraintsBlock ([] : List (List String))).length > 0)]
      simp only [String.append_assoc, header_indent_merge]
    · obtain ⟨hlen, hmem⟩ := mapM_segments_ok cons conSegs hm
      have hcsne : conSegs ≠ [] := by
        intro hq
        subst hq
        exact hnil (List.eq_nil_of_length_eq_zero hlen.symm)
      obtain ⟨x, xs, rfl⟩ : ∃ x xs, conSegs = x :: xs := by
        cases conSegs with
        | nil => exact absurd rfl hcsne
        | cons a b => exact ⟨a, b, rfl⟩
      have hpos : 0 < (constraintsBlock (x :: xs)).length := constraintsBlock_length_pos hmem
      rw [if_neg hnil, if_pos hpos]
      simp only [String.append_assoc, header_indent_merge]

/-- Witness for C7 at a concrete constraint-free statement. -/
theorem create_table_assembly_witness :
    ∃ conSegs : List (List String),
      List.mapM TableConstraint.segments ([] : List TableConstraint) = .ok conSegs ∧
      "CREATE TABLE t (\n    \n)\n;" =
        "CREATE TABLE " ++ "t" ++ " (\n    " ++ columnsBlock [] ++ "\n" ++
          (if ([] : List TableConstraint) = [] then ""
           else "  , " ++ constraintsBlock conSegs ++ "\n") ++ ")\n;" :=
  create_table_assembly "t" [] [] "CREATE TABLE t (\n    \n)\n;" rfl
